import Mathlib

/-!
Verification of the feature-extraction and classification pipeline of
`DatasetMaker.py`: a shallow embedding of the Normalizer, Band Aggregator,
Region Combiner and Classifier over exact rationals, together with the
per-file skip filter and output step, and theorems checking the
specification's claims against it.
-/

set_option autoImplicit false
set_option linter.unnecessarySeqFocus false

namespace DatasetMaker

/-- A measurement curve: the (frequency, level) pairs read from the first two
columns of an input file (source lines 45-46). -/
abbrev Curve := List (ℚ × ℚ)

/-- The four sound-signature classes (source line 15, `classes`). -/
def classes : List String := ["Neutral", "Bright", "V-shape", "Warm"]

/-- The seven fixed frequency bands with their `[low, high)` bounds in Hz
(source lines 23-31, `bands`). -/
def bands : List (String × ℚ × ℚ) :=
  [("sub_bass", 20, 60), ("mid_bass", 60, 250), ("low_mids", 250, 500),
   ("mids", 500, 2000), ("upper_mids", 2000, 4000), ("presence", 4000, 6000),
   ("brilliance", 6000, 12000)]

/-- Classification threshold in dB (source line 34, `threshold = 3.0`). -/
def threshold : ℚ := 3

/-- Arithmetic mean of a list, as `np.mean` computes it (sum divided by
length; on ℚ the empty case degenerates to 0 instead of NaN, a value no
downstream consumer ever reads). -/
def mean (xs : List ℚ) : ℚ := xs.sum / (xs.length : ℚ)

/-- Normalizer (source line 48): `spl_norm = spl - np.mean(spl)`. -/
def spl_norm (spl : List ℚ) : List ℚ := spl.map (fun x => x - mean spl)

/-- Frequency-in-band test for one sample: `(f >= low) & (f < high)`
(source line 53). -/
def inB (low high f : ℚ) : Bool := decide (low ≤ f ∧ f < high)

/-- The boolean mask `(freqs >= low) & (freqs < high)` (source line 53). -/
def maskOf (freqs : List ℚ) (low high : ℚ) : List Bool :=
  freqs.map (inB low high)

/-- numpy boolean-mask indexing `vals[mask]`: keep the values at the
positions where the mask is true. -/
def maskedVals (mask : List Bool) (vals : List ℚ) : List ℚ :=
  (mask.zip vals).filterMap (fun p => if p.1 then some p.2 else none)

/-- Band Aggregator for one band (source lines 51-57): the mean of the
masked normalized levels when any sample falls in `[low, high)`, and the
explicit `None` marker otherwise. -/
def band_mean (freqs vals : List ℚ) (low high : ℚ) : Option ℚ :=
  let mask := maskOf freqs low high
  if mask.any (fun b => b) then some (mean (maskedVals mask vals)) else none

/-- First column of the curve (source line 45, `freqs`). -/
def freqsOf (c : Curve) : List ℚ := c.map Prod.fst

/-- Second column of the curve (source line 46, `spl`). -/
def levelsOf (c : Curve) : List ℚ := c.map Prod.snd

/-- The band mean of a curve for the band `[low, high)`, computed on the
normalized levels (source lines 47-57). -/
def bandMeanOf (c : Curve) (low high : ℚ) : Option ℚ :=
  band_mean (freqsOf c) (spl_norm (levelsOf c)) low high

/-- `band_means["sub_bass"]`. -/
def sub_bass_mean (c : Curve) : Option ℚ := bandMeanOf c 20 60

/-- `band_means["mid_bass"]`. -/
def mid_bass_mean (c : Curve) : Option ℚ := bandMeanOf c 60 250

/-- `band_means["low_mids"]`. -/
def low_mids_mean (c : Curve) : Option ℚ := bandMeanOf c 250 500

/-- `band_means["mids"]`. -/
def mids_mean (c : Curve) : Option ℚ := bandMeanOf c 500 2000

/-- `band_means["upper_mids"]`. -/
def upper_mids_mean (c : Curve) : Option ℚ := bandMeanOf c 2000 4000

/-- `band_means["presence"]`. -/
def presence_mean (c : Curve) : Option ℚ := bandMeanOf c 4000 6000

/-- `band_means["brilliance"]`. -/
def brilliance_mean (c : Curve) : Option ℚ := bandMeanOf c 6000 12000

/-- Region Combiner, Bass (source lines 61-65): average when both sub-bands
are defined, else the defined one, else `None`. -/
def bass_avg (s m : Option ℚ) : Option ℚ :=
  match s, m with
  | some x, some y => some ((x + y) / 2)
  | some x, none => some x
  | none, o => o

/-- Region Combiner, Mid (source lines 68-70): `np.mean` of the defined
members of {low_mids, mids, upper_mids}, `None` when none is defined. -/
def mid_avg (l m u : Option ℚ) : Option ℚ :=
  let vs := [l, m, u].filterMap id
  if vs.isEmpty then none else some (mean vs)

/-- Region Combiner, Treble (source lines 73-76): average when both
presence and brilliance are defined, else the defined one, else `None`. -/
def treble_avg (p b : Option ℚ) : Option ℚ :=
  match p, b with
  | some x, some y => some ((x + y) / 2)
  | some x, none => some x
  | none, o => o

/-- `bass_avg` of a curve. -/
def regionBass (c : Curve) : Option ℚ :=
  bass_avg (sub_bass_mean c) (mid_bass_mean c)

/-- `mid_avg` of a curve. -/
def regionMid (c : Curve) : Option ℚ :=
  mid_avg (low_mids_mean c) (mids_mean c) (upper_mids_mean c)

/-- `treble_avg` of a curve. -/
def regionTreble (c : Curve) : Option ℚ :=
  treble_avg (presence_mean c) (brilliance_mean c)

/-- The Classifier's decision cascade on the two differences
(source lines 85-92), first match wins. -/
def classifyDiffs (bass_diff treble_diff th : ℚ) : String :=
  if bass_diff ≥ th ∧ treble_diff ≥ th then "V-shape"
  else if treble_diff ≥ th ∧ bass_diff < th then "Bright"
  else if bass_diff ≥ th ∧ treble_diff < th then "Warm"
  else "Neutral"

/-- The Classifier (source lines 78-92): label defaults to `"Neutral"`;
only when all three regions are defined are the differences computed and
the cascade applied. -/
def label (bass mid treble : Option ℚ) (th : ℚ) : String :=
  match bass, mid, treble with
  | some b, some m, some t => classifyDiffs (b - m) (t - m) th
  | _, _, _ => "Neutral"

/-- The full numerical pipeline for one curve, with the fixed threshold. -/
def labelOfCurve (c : Curve) : String :=
  label (regionBass c) (regionMid c) (regionTreble c) threshold

/-- `bass_diff = bass_avg - mid_avg` (source line 82), defined only when
both regions are. -/
def bassDiffOf (c : Curve) : Option ℚ :=
  match regionBass c, regionMid c with
  | some b, some m => some (b - m)
  | _, _ => none

/-- `treble_diff = treble_avg - mid_avg` (source line 83), defined only
when both regions are. -/
def trebleDiffOf (c : Curve) : Option ℚ :=
  match regionTreble c, regionMid c with
  | some t, some m => some (t - m)
  | _, _ => none

/-- One input file as the per-file loop sees it: its name (as a character
sequence), the number of columns of the loaded table, and the
(frequency, level) pairs of its first two columns. -/
structure CSVFile where
  name : List Char
  numCols : Nat
  rows : Curve

/-- `filename.lower().endswith(".csv")` (source line 38), on the
character-sequence view of the name (ASCII lowercasing, which agrees with
Python on the filenames at stake). -/
def isCSVName (name : List Char) : Bool :=
  ".csv".toList.isSuffixOf (name.map Char.toLower)

/-- The per-file loop body (source lines 37-118) as a function from a file
to its produced outputs: `none` when the file is skipped by the extension
or column filter (lines 38-39 and 43-44, `continue`, nothing written),
`some lab` when the plot image and the archived copy are written into the
folders of label `lab` (lines 110-118). -/
def processFile (file : CSVFile) : Option String :=
  if ¬ isCSVName file.name then none
  else if file.numCols < 2 then none
  else some (labelOfCurve file.rows)

/-- Add the constant `k` to every level of the curve, leaving frequencies
unchanged (a uniform dB offset of the measurement). -/
def shiftCurve (k : ℚ) (c : Curve) : Curve :=
  c.map (fun p => (p.1, p.2 + k))

/-- Modelled from the spec ("mean of the normalized levels of exactly
those samples whose frequency f satisfies low ≤ f < high"): the
NormalizedCurve, pairing each frequency with its mean-subtracted level. -/
def normCurveOf (c : Curve) : Curve :=
  c.map (fun p => (p.1, p.2 - mean (levelsOf c)))

/-- Modelled from the spec: the normalized samples falling in a band. -/
def samplesInBand (c : Curve) (low high : ℚ) : Curve :=
  (normCurveOf c).filter (fun p => inB low high p.1)

/-- The raw samples falling in a band (selection before normalization). -/
def rawSel (c : Curve) (low high : ℚ) : Curve :=
  c.filter (fun p => inB low high p.1)

/-- The names of the bands whose interval contains the frequency `f`. -/
def bandsContaining (f : ℚ) : List String :=
  (bands.filter (fun b => inB b.2.1 b.2.2 f)).map Prod.fst

/-! ### Helper lemmas -/

theorem sum_map_sub (xs : List ℚ) (k : ℚ) :
    (xs.map (fun x => x - k)).sum = xs.sum - xs.length * k := by
  induction xs with
  | nil => simp
  | cons a t ih => simp [ih]; ring

theorem length_ne_zero_q (xs : List ℚ) (h : xs ≠ []) : (xs.length : ℚ) ≠ 0 := by
  have : xs.length ≠ 0 := by simpa [List.length_eq_zero] using h
  exact_mod_cast this

theorem mean_map_sub (xs : List ℚ) (k : ℚ) (h : xs ≠ []) :
    mean (xs.map (fun x => x - k)) = mean xs - k := by
  have hn := length_ne_zero_q xs h
  simp only [mean, sum_map_sub, List.length_map]
  field_simp

theorem mean_map_add (xs : List ℚ) (k : ℚ) (h : xs ≠ []) :
    mean (xs.map (fun x => x + k)) = mean xs + k := by
  have hfun : (fun x : ℚ => x + k) = fun x : ℚ => x - (-k) := by
    funext x
    ring
  rw [hfun, mean_map_sub xs (-k) h]
  ring

theorem spl_norm_shift (L : List ℚ) (k : ℚ) (h : L ≠ []) :
    spl_norm (L.map (fun x => x + k)) = spl_norm L := by
  unfold spl_norm
  rw [mean_map_add L k h, List.map_map]
  have hfun : ((fun x : ℚ => x - (mean L + k)) ∘ fun x : ℚ => x + k) =
      fun x : ℚ => x - mean L := by
    funext x
    simp only [Function.comp_apply]
    ring
  rw [hfun]

theorem bandMeanOf_shift (c : Curve) (k : ℚ) (h : c ≠ []) (low high : ℚ) :
    bandMeanOf (shiftCurve k c) low high = bandMeanOf c low high := by
  have hf : freqsOf (shiftCurve k c) = freqsOf c := by
    simp [freqsOf, shiftCurve]
  have hl : levelsOf (shiftCurve k c) = (levelsOf c).map (fun x => x + k) := by
    simp [levelsOf, shiftCurve]
  have hne : levelsOf c ≠ [] := by
    simpa [levelsOf] using h
  unfold bandMeanOf
  rw [hf, hl, spl_norm_shift _ _ hne]

theorem maskedVals_maskOf (low high : ℚ) (freqs vals : List ℚ)
    (h : freqs.length = vals.length) :
    maskedVals (maskOf freqs low high) vals =
      ((freqs.zip vals).filter (fun p => inB low high p.1)).map Prod.snd := by
  induction freqs generalizing vals with
  | nil =>
    cases vals with
    | nil => rfl
    | cons v vt => simp at h
  | cons f ft ih =>
    cases vals with
    | nil => simp at h
    | cons v vt =>
      have h' : ft.length = vt.length := by simpa using h
      by_cases hb : inB low high f <;>
        simp [maskOf, maskedVals, hb, List.filter_cons, ih vt h'] <;>
        simp [maskOf, maskedVals] at ih ⊢ <;> exact ih vt h'

theorem maskOf_any (low high : ℚ) (freqs vals : List ℚ)
    (h : freqs.length = vals.length) :
    ((maskOf freqs low high).any (fun b => b) = true) ↔
      ((freqs.zip vals).filter (fun p => inB low high p.1)) ≠ [] := by
  induction freqs generalizing vals with
  | nil =>
    cases vals with
    | nil => simp [maskOf]
    | cons v vt => simp at h
  | cons f ft ih =>
    cases vals with
    | nil => simp at h
    | cons v vt =>
      have h' : ft.length = vt.length := by simpa using h
      by_cases hb : inB low high f
      · simp [maskOf, hb, List.filter_cons]
      · simpa [maskOf, hb, List.filter_cons] using ih vt h'

/-- The Band Aggregator, characterised over the NormalizedCurve: the band
mean is undefined exactly when no normalized sample falls in the band,
and otherwise is the mean of the selected normalized levels. -/
theorem bandMeanOf_eq (c : Curve) (low high : ℚ) :
    bandMeanOf c low high =
      if samplesInBand c low high = [] then none
      else some (mean ((samplesInBand c low high).map Prod.snd)) := by
  have hlen : (freqsOf c).length = (spl_norm (levelsOf c)).length := by
    simp [freqsOf, levelsOf, spl_norm]
  have hzip : (freqsOf c).zip (spl_norm (levelsOf c)) =
      c.map (fun p => (p.1, p.2 - mean (levelsOf c))) := by
    unfold freqsOf levelsOf spl_norm
    rw [List.map_map, List.zip_map']
    rfl
  have hsam : samplesInBand c low high =
      ((freqsOf c).zip (spl_norm (levelsOf c))).filter (fun p => inB low high p.1) := by
    rw [hzip]
    rfl
  have hmv := maskedVals_maskOf low high (freqsOf c) (spl_norm (levelsOf c)) hlen
  have hany := maskOf_any low high (freqsOf c) (spl_norm (levelsOf c)) hlen
  show (if (maskOf (freqsOf c) low high).any (fun b => b) = true
    then some (mean (maskedVals (maskOf (freqsOf c) low high) (spl_norm (levelsOf c))))
    else none) = _
  by_cases hsel : samplesInBand c low high = []
  · have hc : ¬ ((maskOf (freqsOf c) low high).any (fun b => b) = true) := by
      rw [hany, ← hsam]
      simpa using hsel
    rw [if_neg hc, if_pos hsel]
  · have hc : (maskOf (freqsOf c) low high).any (fun b => b) = true := by
      rw [hany, ← hsam]
      exact hsel
    rw [if_pos hc, if_neg hsel, hmv, ← hsam]

/-- The selected normalized samples are the raw in-band samples with the
overall mean subtracted from their levels. -/
theorem samplesInBand_eq (c : Curve) (low high : ℚ) :
    samplesInBand c low high =
      (rawSel c low high).map (fun p => (p.1, p.2 - mean (levelsOf c))) := by
  unfold samplesInBand normCurveOf rawSel
  rw [List.filter_map]
  rfl

/-- The band mean is the mean of the raw in-band levels, shifted down by
the overall mean of the curve. -/
theorem bandMeanOf_eq_raw (c : Curve) (low high : ℚ) :
    bandMeanOf c low high =
      if rawSel c low high = [] then none
      else some (mean ((rawSel c low high).map Prod.snd) - mean (levelsOf c)) := by
  rw [bandMeanOf_eq, samplesInBand_eq]
  by_cases hr : rawSel c low high = []
  · simp [hr]
  · have hmapne :
        (rawSel c low high).map (fun p => (p.1, p.2 - mean (levelsOf c))) ≠ [] := by
      simpa using hr
    rw [if_neg hmapne, if_neg hr]
    have h1 : ((rawSel c low high).map
        (fun p => (p.1, p.2 - mean (levelsOf c)))).map Prod.snd =
        ((rawSel c low high).map Prod.snd).map (fun x => x - mean (levelsOf c)) := by
      rw [List.map_map, List.map_map]
      rfl
    rw [h1, mean_map_sub _ _ (by simpa using hr)]

theorem bass_avg_shiftO (d : ℚ) (a b : Option ℚ) :
    bass_avg (a.map (fun x => x - d)) (b.map (fun x => x - d)) =
      (bass_avg a b).map (fun x => x - d) := by
  cases a <;> cases b <;> simp [bass_avg] <;> ring

theorem treble_avg_shiftO (d : ℚ) (a b : Option ℚ) :
    treble_avg (a.map (fun x => x - d)) (b.map (fun x => x - d)) =
      (treble_avg a b).map (fun x => x - d) := by
  cases a <;> cases b <;> simp [treble_avg] <;> ring

theorem mid_avg_shiftO (d : ℚ) (a b u : Option ℚ) :
    mid_avg (a.map (fun x => x - d)) (b.map (fun x => x - d))
        (u.map (fun x => x - d)) =
      (mid_avg a b u).map (fun x => x - d) := by
  cases a <;> cases b <;> cases u <;> simp [mid_avg, mean] <;> ring

theorem label_shiftO (d th : ℚ) (B M T : Option ℚ) :
    label (B.map (fun x => x - d)) (M.map (fun x => x - d))
        (T.map (fun x => x - d)) th =
      label B M T th := by
  cases B with
  | none => cases M <;> cases T <;> rfl
  | some b =>
    cases M with
    | none => cases T <;> rfl
    | some m =>
      cases T with
      | none => rfl
      | some t =>
        show classifyDiffs (b - d - (m - d)) (t - d - (m - d)) th =
          classifyDiffs (b - m) (t - m) th
        have e1 : b - d - (m - d) = b - m := by ring
        have e2 : t - d - (m - d) = t - m := by ring
        rw [e1, e2]

/-! ### Claim theorems -/

/-- C1: for every defined triple (Bass, Mid, Treble) and every threshold,
the Classifier computes the decision table on `bassDiff = Bass − Mid` and
`trebleDiff = Treble − Mid`: V-shape iff both differences reach the
threshold, Bright iff only the treble difference does, Warm iff only the
bass difference does, Neutral iff neither does; the result is always one
of the four classes, and the four iff-characterisations show the outcome
regions tile the (bassDiff, trebleDiff) plane with no overlap and no gap
at the threshold lines. -/
theorem classifier_decision_table (B M T th : ℚ) :
    label (some B) (some M) (some T) th = classifyDiffs (B - M) (T - M) th ∧
    classifyDiffs (B - M) (T - M) th ∈ classes ∧
    (classifyDiffs (B - M) (T - M) th = "V-shape" ↔ th ≤ B - M ∧ th ≤ T - M) ∧
    (classifyDiffs (B - M) (T - M) th = "Bright" ↔ th ≤ T - M ∧ B - M < th) ∧
    (classifyDiffs (B - M) (T - M) th = "Warm" ↔ th ≤ B - M ∧ T - M < th) ∧
    (classifyDiffs (B - M) (T - M) th = "Neutral" ↔ B - M < th ∧ T - M < th) := by
  refine ⟨rfl, ?_⟩
  generalize B - M = bd
  generalize T - M = td
  unfold classifyDiffs
  split_ifs with h1 h2 h3
  · obtain ⟨ha, hb⟩ := h1
    refine ⟨by decide, ?_, ?_, ?_, ?_⟩ <;> simp [classes]
    · exact ⟨ha, hb⟩
    · intro h; linarith
    · intro h; linarith
    · intro h; linarith
  · obtain ⟨ha, hb⟩ := h2
    refine ⟨by decide, ?_, ?_, ?_, ?_⟩ <;> simp [classes]
    · intro h; linarith
    · exact ⟨ha, hb⟩
    · intro h; linarith
    · intro h; linarith
  · obtain ⟨ha, hb⟩ := h3
    refine ⟨by decide, ?_, ?_, ?_, ?_⟩ <;> simp [classes]
    · intro h; linarith
    · intro h; linarith
    · exact ⟨ha, hb⟩
    · intro h; linarith
  · push_neg at h1 h2 h3
    have hbd : bd < th := by
      by_contra hc
      push_neg at hc
      linarith [h1 hc, h3 hc]
    have htd : td < th := by
      by_contra hc
      push_neg at hc
      linarith [h2 hc]
    refine ⟨by decide, ?_, ?_, ?_, ?_⟩ <;> simp [classes]
    · intro h; linarith
    · intro h; linarith
    · intro h; linarith
    · exact ⟨hbd, htd⟩

/-- C2: for every input curve, if any one of the three region means is
undefined, the Classifier assigns the fallback label Neutral (the `label`
branch taken never forms `bass_diff` or `treble_diff`: the differences
exist only in the all-defined match arm). -/
theorem undefined_region_fallback (c : Curve)
    (h : regionBass c = none ∨ regionMid c = none ∨ regionTreble c = none) :
    labelOfCurve c = "Neutral" := by
  unfold labelOfCurve
  rcases h with h | h | h
  · rw [h]; cases regionMid c <;> cases regionTreble c <;> rfl
  · rw [h]; cases regionBass c <;> cases regionTreble c <;> rfl
  · rw [h]; cases regionBass c <;> cases regionMid c <;> rfl

/-- Witness for C2 at the empty curve, whose Bass region is undefined. -/
theorem undefined_region_fallback_witness :
    (regionBass [] = none ∨ regionMid [] = none ∨ regionTreble [] = none) ∧
    labelOfCurve [] = "Neutral" :=
  ⟨Or.inl rfl, undefined_region_fallback [] (Or.inl rfl)⟩

/-- C4: the Region Combiner is defined-aware. Bass and Treble average
their two sub-bands when both are defined, return the single defined one
when exactly one is, and are undefined only when both are; Mid averages
the defined members of {low_mids, mids, upper_mids} (all eight
definedness patterns listed) and is undefined only when all three are. -/
theorem region_combiner_defined_aware (x y a b u : ℚ) :
    bass_avg (some x) (some y) = some ((x + y) / 2) ∧
    bass_avg (some x) none = some x ∧
    bass_avg none (some y) = some y ∧
    bass_avg none none = none ∧
    treble_avg (some x) (some y) = some ((x + y) / 2) ∧
    treble_avg (some x) none = some x ∧
    treble_avg none (some y) = some y ∧
    treble_avg none none = none ∧
    mid_avg (some a) (some b) (some u) = some ((a + b + u) / 3) ∧
    mid_avg none (some b) (some u) = some ((b + u) / 2) ∧
    mid_avg (some a) none (some u) = some ((a + u) / 2) ∧
    mid_avg (some a) (some b) none = some ((a + b) / 2) ∧
    mid_avg (some a) none none = some a ∧
    mid_avg none (some b) none = some b ∧
    mid_avg none none (some u) = some u ∧
    mid_avg none none none = none := by
  refine ⟨rfl, rfl, rfl, rfl, rfl, rfl, rfl, rfl, ?_, ?_, ?_, ?_, ?_, ?_, ?_, rfl⟩ <;>
    simp [mid_avg, mean] <;> ring

/-- C3: for every curve and each of the 7 fixed bands, the band mean is
the arithmetic mean of the normalized levels of exactly the samples whose
frequency f satisfies low ≤ f < high, and is the explicit `none` marker
(not zero, not NaN) when no sample falls in the half-open interval;
the boundaries are half-open: a sample at exactly 60 Hz lies in mid_bass
only, and one at exactly 2000 Hz in upper_mids only. -/
theorem band_mean_halfopen_spec (c : Curve) (nm : String) (low high : ℚ)
    (_hb : (nm, low, high) ∈ bands) :
    (samplesInBand c low high = [] → bandMeanOf c low high = none) ∧
    (samplesInBand c low high ≠ [] →
      bandMeanOf c low high =
        some (mean ((samplesInBand c low high).map Prod.snd))) ∧
    bandsContaining 60 = ["mid_bass"] ∧
    bandsContaining 2000 = ["upper_mids"] := by
  refine ⟨?_, ?_, by decide, by decide⟩
  · intro h
    rw [bandMeanOf_eq, if_pos h]
  · intro h
    rw [bandMeanOf_eq, if_neg h]

/-- Witness for C3 at the one-sample curve [(100, 3)] and the band
sub_bass = [20, 60). -/
theorem band_mean_halfopen_spec_witness :
    (("sub_bass", (20 : ℚ), (60 : ℚ)) ∈ bands) ∧
    ((samplesInBand [((100 : ℚ), (3 : ℚ))] 20 60 = [] →
        bandMeanOf [((100 : ℚ), (3 : ℚ))] 20 60 = none) ∧
     (samplesInBand [((100 : ℚ), (3 : ℚ))] 20 60 ≠ [] →
        bandMeanOf [((100 : ℚ), (3 : ℚ))] 20 60 =
          some (mean ((samplesInBand [((100 : ℚ), (3 : ℚ))] 20 60).map Prod.snd))) ∧
     bandsContaining 60 = ["mid_bass"] ∧
     bandsContaining 2000 = ["upper_mids"]) :=
  ⟨by decide,
    band_mean_halfopen_spec [((100 : ℚ), (3 : ℚ))] "sub_bass" 20 60 (by decide)⟩

/-- C5: on every non-empty level sequence the Normalizer returns a
same-length sequence whose i-th element is `levels[i] - mean(levels)`,
and the mean of the returned sequence is exactly 0 (the embedding is over
exact rationals, so the floating-point tolerance of the spec sharpens to
equality); as a Lean function it is pure by construction. -/
theorem normalizer_spec (L : List ℚ) (h : L ≠ []) :
    (spl_norm L).length = L.length ∧
    (∀ i : ℕ, (spl_norm L)[i]? = (L[i]?).map (fun x => x - mean L)) ∧
    mean (spl_norm L) = 0 := by
  refine ⟨by simp [spl_norm], fun i => by simp [spl_norm, List.getElem?_map], ?_⟩
  have h0 := mean_map_sub L (mean L) h
  simp only [spl_norm]
  rw [h0]
  ring

/-- Witness for C5 at the two-sample sequence [1, 2]. -/
theorem normalizer_spec_witness :
    (([(1 : ℚ), 2] : List ℚ) ≠ []) ∧
    ((spl_norm [(1 : ℚ), 2]).length = ([(1 : ℚ), 2] : List ℚ).length ∧
     (∀ i : ℕ, (spl_norm [(1 : ℚ), 2])[i]? =
       (([(1 : ℚ), 2] : List ℚ)[i]?).map (fun x => x - mean [(1 : ℚ), 2])) ∧
     mean (spl_norm [(1 : ℚ), 2]) = 0) :=
  ⟨by simp, normalizer_spec [(1 : ℚ), 2] (by simp)⟩

/-- C8: a file is silently skipped (no output of any kind, `none`) exactly
when its lowercased name does not end in ".csv" or its table has fewer
than 2 columns; every other file goes through the full pipeline and
produces its outputs under the computed label. -/
theorem skip_filter_spec (file : CSVFile) :
    (processFile file = none ↔
      (¬ isCSVName file.name = true ∨ file.numCols < 2)) ∧
    processFile file =
      (if isCSVName file.name = true ∧ 2 ≤ file.numCols
       then some (labelOfCurve file.rows) else none) := by
  unfold processFile
  by_cases h1 : isCSVName file.name
  · by_cases h2 : file.numCols < 2
    · have h2' : ¬ 2 ≤ file.numCols := by omega
      simp [h1, h2, h2']
    · have h2' : 2 ≤ file.numCols := by omega
      simp [h1, h2, h2']
  · simp [h1]

/-- C6 counterexample: the curve [(300, 0), (5000, 10)] leaves Bass
undefined while Mid = -5 and Treble = 5 are both defined — so not all
three regions are undefined, and the would-be treble difference (10)
clears the threshold — yet the code short-circuits the label to Neutral
(the all-defined branch is never entered). -/
theorem region_undefined_shortcircuit_cex :
    regionBass [((300 : ℚ), (0 : ℚ)), (5000, 10)] = none ∧
    regionMid [((300 : ℚ), (0 : ℚ)), (5000, 10)] = some (-5) ∧
    regionTreble [((300 : ℚ), (0 : ℚ)), (5000, 10)] = some 5 ∧
    labelOfCurve [((300 : ℚ), (0 : ℚ)), (5000, 10)] = "Neutral" := by
  have hb : regionBass [((300 : ℚ), (0 : ℚ)), (5000, 10)] = none := by decide
  refine ⟨hb, ?_, ?_, ?_⟩
  · simp [regionMid, mid_avg, low_mids_mean, mids_mean, upper_mids_mean,
      bandMeanOf, band_mean, maskOf, maskedVals, freqsOf, levelsOf,
      spl_norm, inB, mean, List.filterMap_cons]
    norm_num
  · simp [regionTreble, treble_avg, presence_mean, brilliance_mean,
      bandMeanOf, band_mean, maskOf, maskedVals, freqsOf, levelsOf,
      spl_norm, inB, mean, List.filterMap_cons]
    norm_num
  · unfold labelOfCurve
    rw [hb]
    cases regionMid [((300 : ℚ), (0 : ℚ)), (5000, 10)] <;>
      cases regionTreble [((300 : ℚ), (0 : ℚ)), (5000, 10)] <;> rfl

/-- C6 amended: an undefined sub-band does not short-circuit the label as
long as every region stays defined — Treble falls back to the single
defined one of presence/brilliance, and with all three regions defined
classification proceeds through the decision cascade — but the label
falls back to Neutral as soon as ANY one of Bass, Mid, Treble is
undefined, not only when all three are. -/
theorem subband_fallback_amended (p b m t th : ℚ) (B M T : Option ℚ) :
    treble_avg (some p) none = some p ∧
    treble_avg none (some p) = some p ∧
    label (some b) (some m) (some t) th = classifyDiffs (b - m) (t - m) th ∧
    label none M T th = "Neutral" ∧
    label B none T th = "Neutral" ∧
    label B M none th = "Neutral" := by
  refine ⟨rfl, rfl, rfl, ?_, ?_, ?_⟩
  · cases M <;> cases T <;> rfl
  · cases B <;> cases T <;> rfl
  · cases B <;> cases M <;> rfl

/-- C7 counterexample: a well-named two-column file whose loaded curve is
empty is not rejected and does not yield an "undefined" outcome: the
pipeline runs to completion and writes its plot and archived copy under
the Neutral label. -/
theorem empty_curve_output_cex :
    processFile ⟨"empty.csv".toList, 2, []⟩ = some "Neutral" := by
  decide

/-- C7 amended: for a .csv-named file with at least 2 columns whose
loaded curve is empty, every band mean and every region mean is the
explicit undefined marker and the label falls back to Neutral — but the
empty input is not rejected: the pipeline still emits the plot and the
archived copy under Neutral. -/
theorem empty_curve_amended (nm : List Char) (k : Nat)
    (h1 : isCSVName nm = true) (h2 : 2 ≤ k) :
    (∀ bnd ∈ bands, bandMeanOf [] bnd.2.1 bnd.2.2 = none) ∧
    regionBass [] = none ∧ regionMid [] = none ∧ regionTreble [] = none ∧
    labelOfCurve [] = "Neutral" ∧
    processFile ⟨nm, k, []⟩ = some "Neutral" := by
  have hk : ¬ k < 2 := by omega
  refine ⟨fun bnd _ => rfl, rfl, rfl, rfl, rfl, ?_⟩
  simp [processFile, h1, hk]
  rfl

/-- Witness for C7's amended claim at the file name "empty.csv" with 2
columns. -/
theorem empty_curve_amended_witness :
    (isCSVName "empty.csv".toList = true ∧ 2 ≤ 2) ∧
    ((∀ bnd ∈ bands, bandMeanOf [] bnd.2.1 bnd.2.2 = none) ∧
     regionBass [] = none ∧ regionMid [] = none ∧ regionTreble [] = none ∧
     labelOfCurve [] = "Neutral" ∧
     processFile ⟨"empty.csv".toList, 2, []⟩ = some "Neutral") :=
  ⟨⟨by decide, by decide⟩,
    empty_curve_amended "empty.csv".toList 2 (by decide) (by decide)⟩

/-- C9: adding a constant offset to every level of a non-empty curve
leaves the normalized curve, all 7 band means, all 3 region means, both
differences and the assigned label unchanged — normalization subtracts
the mean, cancelling any uniform level offset. -/
theorem shift_invariance (c : Curve) (k : ℚ) (h : c ≠ []) :
    spl_norm (levelsOf (shiftCurve k c)) = spl_norm (levelsOf c) ∧
    normCurveOf (shiftCurve k c) = normCurveOf c ∧
    (∀ bnd ∈ bands,
      bandMeanOf (shiftCurve k c) bnd.2.1 bnd.2.2 =
        bandMeanOf c bnd.2.1 bnd.2.2) ∧
    regionBass (shiftCurve k c) = regionBass c ∧
    regionMid (shiftCurve k c) = regionMid c ∧
    regionTreble (shiftCurve k c) = regionTreble c ∧
    bassDiffOf (shiftCurve k c) = bassDiffOf c ∧
    trebleDiffOf (shiftCurve k c) = trebleDiffOf c ∧
    labelOfCurve (shiftCurve k c) = labelOfCurve c := by
  have hbm := bandMeanOf_shift c k h
  have hl : levelsOf (shiftCurve k c) = (levelsOf c).map (fun x => x + k) := by
    simp [levelsOf, shiftCurve]
  have hne : levelsOf c ≠ [] := by
    simpa [levelsOf] using h
  have h1 : spl_norm (levelsOf (shiftCurve k c)) = spl_norm (levelsOf c) := by
    rw [hl, spl_norm_shift _ _ hne]
  have h2 : normCurveOf (shiftCurve k c) = normCurveOf c := by
    have hm : mean (levelsOf (shiftCurve k c)) = mean (levelsOf c) + k := by
      rw [hl, mean_map_add _ _ hne]
    unfold normCurveOf
    rw [hm]
    unfold shiftCurve
    rw [List.map_map]
    have hfun : ((fun p : ℚ × ℚ => (p.1, p.2 - (mean (levelsOf c) + k))) ∘
        fun p : ℚ × ℚ => (p.1, p.2 + k)) =
        fun p : ℚ × ℚ => (p.1, p.2 - mean (levelsOf c)) := by
      funext p
      simp only [Function.comp_apply, Prod.mk.injEq]
      exact ⟨trivial, by ring⟩
    rw [hfun]
  have hbass : regionBass (shiftCurve k c) = regionBass c := by
    unfold regionBass sub_bass_mean mid_bass_mean
    rw [hbm, hbm]
  have hmid : regionMid (shiftCurve k c) = regionMid c := by
    unfold regionMid low_mids_mean mids_mean upper_mids_mean
    rw [hbm, hbm, hbm]
  have htreb : regionTreble (shiftCurve k c) = regionTreble c := by
    unfold regionTreble presence_mean brilliance_mean
    rw [hbm, hbm]
  refine ⟨h1, h2, fun bnd _ => hbm _ _, hbass, hmid, htreb, ?_, ?_, ?_⟩
  · unfold bassDiffOf
    rw [hbass, hmid]
  · unfold trebleDiffOf
    rw [htreb, hmid]
  · unfold labelOfCurve
    rw [hbass, hmid, htreb]

/-- Witness for C9 at the curve [(100, 1), (5000, 2)] with offset 7. -/
theorem shift_invariance_witness :
    (([((100 : ℚ), (1 : ℚ)), ((5000 : ℚ), (2 : ℚ))] : Curve) ≠ []) ∧
    (spl_norm (levelsOf (shiftCurve 7 [((100 : ℚ), (1 : ℚ)), ((5000 : ℚ), (2 : ℚ))])) =
       spl_norm (levelsOf [((100 : ℚ), (1 : ℚ)), ((5000 : ℚ), (2 : ℚ))]) ∧
     normCurveOf (shiftCurve 7 [((100 : ℚ), (1 : ℚ)), ((5000 : ℚ), (2 : ℚ))]) =
       normCurveOf [((100 : ℚ), (1 : ℚ)), ((5000 : ℚ), (2 : ℚ))] ∧
     (∀ bnd ∈ bands,
       bandMeanOf (shiftCurve 7 [((100 : ℚ), (1 : ℚ)), ((5000 : ℚ), (2 : ℚ))]) bnd.2.1 bnd.2.2 =
         bandMeanOf [((100 : ℚ), (1 : ℚ)), ((5000 : ℚ), (2 : ℚ))] bnd.2.1 bnd.2.2) ∧
     regionBass (shiftCurve 7 [((100 : ℚ), (1 : ℚ)), ((5000 : ℚ), (2 : ℚ))]) =
       regionBass [((100 : ℚ), (1 : ℚ)), ((5000 : ℚ), (2 : ℚ))] ∧
     regionMid (shiftCurve 7 [((100 : ℚ), (1 : ℚ)), ((5000 : ℚ), (2 : ℚ))]) =
       regionMid [((100 : ℚ), (1 : ℚ)), ((5000 : ℚ), (2 : ℚ))] ∧
     regionTreble (shiftCurve 7 [((100 : ℚ), (1 : ℚ)), ((5000 : ℚ), (2 : ℚ))]) =
       regionTreble [((100 : ℚ), (1 : ℚ)), ((5000 : ℚ), (2 : ℚ))] ∧
     bassDiffOf (shiftCurve 7 [((100 : ℚ), (1 : ℚ)), ((5000 : ℚ), (2 : ℚ))]) =
       bassDiffOf [((100 : ℚ), (1 : ℚ)), ((5000 : ℚ), (2 : ℚ))] ∧
     trebleDiffOf (shiftCurve 7 [((100 : ℚ), (1 : ℚ)), ((5000 : ℚ), (2 : ℚ))]) =
       trebleDiffOf [((100 : ℚ), (1 : ℚ)), ((5000 : ℚ), (2 : ℚ))] ∧
     labelOfCurve (shiftCurve 7 [((100 : ℚ), (1 : ℚ)), ((5000 : ℚ), (2 : ℚ))]) =
       labelOfCurve [((100 : ℚ), (1 : ℚ)), ((5000 : ℚ), (2 : ℚ))]) :=
  ⟨by simp, shift_invariance [((100 : ℚ), (1 : ℚ)), ((5000 : ℚ), (2 : ℚ))] 7 (by simp)⟩

/-- C10: a sample whose frequency is below 20 Hz or at or above 12000 Hz
lies in none of the 7 bands, so appending it to a curve changes no band
selection; it influences only mean(levels), shifting every band mean and
region mean by the same constant, which cancels in the differences and
leaves the label unchanged. -/
theorem out_of_range_exclusion (c : Curve) (f l : ℚ)
    (h : f < 20 ∨ 12000 ≤ f) :
    (∀ bnd ∈ bands, inB bnd.2.1 bnd.2.2 f = false) ∧
    (∀ bnd ∈ bands,
      rawSel (c ++ [(f, l)]) bnd.2.1 bnd.2.2 = rawSel c bnd.2.1 bnd.2.2) ∧
    (∀ bnd ∈ bands,
      bandMeanOf (c ++ [(f, l)]) bnd.2.1 bnd.2.2 =
        (bandMeanOf c bnd.2.1 bnd.2.2).map
          (fun x => x - (mean (levelsOf (c ++ [(f, l)])) - mean (levelsOf c)))) ∧
    regionBass (c ++ [(f, l)]) =
      (regionBass c).map
        (fun x => x - (mean (levelsOf (c ++ [(f, l)])) - mean (levelsOf c))) ∧
    regionMid (c ++ [(f, l)]) =
      (regionMid c).map
        (fun x => x - (mean (levelsOf (c ++ [(f, l)])) - mean (levelsOf c))) ∧
    regionTreble (c ++ [(f, l)]) =
      (regionTreble c).map
        (fun x => x - (mean (levelsOf (c ++ [(f, l)])) - mean (levelsOf c))) ∧
    bassDiffOf (c ++ [(f, l)]) = bassDiffOf c ∧
    trebleDiffOf (c ++ [(f, l)]) = trebleDiffOf c ∧
    labelOfCurve (c ++ [(f, l)]) = labelOfCurve c := by
  have hout : ∀ bnd ∈ bands, inB bnd.2.1 bnd.2.2 f = false := by
    intro bnd hb
    have hbounds : 20 ≤ bnd.2.1 ∧ bnd.2.2 ≤ 12000 := by
      fin_cases hb <;> norm_num
    simp only [inB, decide_eq_false_iff_not]
    rintro ⟨h1f, h2f⟩
    rcases h with h | h
    · linarith [hbounds.1]
    · linarith [hbounds.2]
  have hsel : ∀ low high, inB low high f = false →
      rawSel (c ++ [(f, l)]) low high = rawSel c low high := by
    intro low high hno
    unfold rawSel
    rw [List.filter_append]
    simp [hno]
  have hshift : ∀ low high, inB low high f = false →
      bandMeanOf (c ++ [(f, l)]) low high =
        (bandMeanOf c low high).map
          (fun x => x - (mean (levelsOf (c ++ [(f, l)])) - mean (levelsOf c))) := by
    intro low high hno
    rw [bandMeanOf_eq_raw, bandMeanOf_eq_raw, hsel low high hno]
    by_cases hr : rawSel c low high = []
    · simp [hr]
    · rw [if_neg hr, if_neg hr]
      simp only [Option.map_some']
      congr 1
      ring
  have hb1 : inB 20 60 f = false := hout ("sub_bass", 20, 60) (by decide)
  have hb2 : inB 60 250 f = false := hout ("mid_bass", 60, 250) (by decide)
  have hb3 : inB 250 500 f = false := hout ("low_mids", 250, 500) (by decide)
  have hb4 : inB 500 2000 f = false := hout ("mids", 500, 2000) (by decide)
  have hb5 : inB 2000 4000 f = false := hout ("upper_mids", 2000, 4000) (by decide)
  have hb6 : inB 4000 6000 f = false := hout ("presence", 4000, 6000) (by decide)
  have hb7 : inB 6000 12000 f = false := hout ("brilliance", 6000, 12000) (by decide)
  have hbass : regionBass (c ++ [(f, l)]) =
      (regionBass c).map
        (fun x => x - (mean (levelsOf (c ++ [(f, l)])) - mean (levelsOf c))) := by
    unfold regionBass sub_bass_mean mid_bass_mean
    rw [hshift 20 60 hb1, hshift 60 250 hb2, bass_avg_shiftO]
  have hmid : regionMid (c ++ [(f, l)]) =
      (regionMid c).map
        (fun x => x - (mean (levelsOf (c ++ [(f, l)])) - mean (levelsOf c))) := by
    unfold regionMid low_mids_mean mids_mean upper_mids_mean
    rw [hshift 250 500 hb3, hshift 500 2000 hb4, hshift 2000 4000 hb5,
      mid_avg_shiftO]
  have htreb : regionTreble (c ++ [(f, l)]) =
      (regionTreble c).map
        (fun x => x - (mean (levelsOf (c ++ [(f, l)])) - mean (levelsOf c))) := by
    unfold regionTreble presence_mean brilliance_mean
    rw [hshift 4000 6000 hb6, hshift 6000 12000 hb7, treble_avg_shiftO]
  have hdb : bassDiffOf (c ++ [(f, l)]) = bassDiffOf c := by
    unfold bassDiffOf
    rw [hbass, hmid]
    cases regionBass c <;> cases regionMid c <;> simp
  have hdt : trebleDiffOf (c ++ [(f, l)]) = trebleDiffOf c := by
    unfold trebleDiffOf
    rw [htreb, hmid]
    cases regionTreble c <;> cases regionMid c <;> simp
  have hlab : labelOfCurve (c ++ [(f, l)]) = labelOfCurve c := by
    unfold labelOfCurve
    rw [hbass, hmid, htreb, label_shiftO]
  exact ⟨hout, fun bnd hb => hsel _ _ (hout bnd hb),
    fun bnd hb => hshift _ _ (hout bnd hb), hbass, hmid, htreb, hdb, hdt, hlab⟩

/-- Witness for C10 at the curve [(100, 1)] with the out-of-range sample
(5, 7). -/
theorem out_of_range_exclusion_witness :
    ((5 : ℚ) < 20 ∨ (12000 : ℚ) ≤ 5) ∧
    ((∀ bnd ∈ bands, inB bnd.2.1 bnd.2.2 (5 : ℚ) = false) ∧
     (∀ bnd ∈ bands,
       rawSel ([((100 : ℚ), (1 : ℚ))] ++ [((5 : ℚ), (7 : ℚ))]) bnd.2.1 bnd.2.2 =
         rawSel [((100 : ℚ), (1 : ℚ))] bnd.2.1 bnd.2.2) ∧
     (∀ bnd ∈ bands,
       bandMeanOf ([((100 : ℚ), (1 : ℚ))] ++ [((5 : ℚ), (7 : ℚ))]) bnd.2.1 bnd.2.2 =
         (bandMeanOf [((100 : ℚ), (1 : ℚ))] bnd.2.1 bnd.2.2).map
           (fun x => x - (mean (levelsOf ([((100 : ℚ), (1 : ℚ))] ++ [((5 : ℚ), (7 : ℚ))])) -
             mean (levelsOf [((100 : ℚ), (1 : ℚ))])))) ∧
     regionBass ([((100 : ℚ), (1 : ℚ))] ++ [((5 : ℚ), (7 : ℚ))]) =
       (regionBass [((100 : ℚ), (1 : ℚ))]).map
         (fun x => x - (mean (levelsOf ([((100 : ℚ), (1 : ℚ))] ++ [((5 : ℚ), (7 : ℚ))])) -
           mean (levelsOf [((100 : ℚ), (1 : ℚ))]))) ∧
     regionMid ([((100 : ℚ), (1 : ℚ))] ++ [((5 : ℚ), (7 : ℚ))]) =
       (regionMid [((100 : ℚ), (1 : ℚ))]).map
         (fun x => x - (mean (levelsOf ([((100 : ℚ), (1 : ℚ))] ++ [((5 : ℚ), (7 : ℚ))])) -
           mean (levelsOf [((100 : ℚ), (1 : ℚ))]))) ∧
     regionTreble ([((100 : ℚ), (1 : ℚ))] ++ [((5 : ℚ), (7 : ℚ))]) =
       (regionTreble [((100 : ℚ), (1 : ℚ))]).map
         (fun x => x - (mean (levelsOf ([((100 : ℚ), (1 : ℚ))] ++ [((5 : ℚ), (7 : ℚ))])) -
           mean (levelsOf [((100 : ℚ), (1 : ℚ))]))) ∧
     bassDiffOf ([((100 : ℚ), (1 : ℚ))] ++ [((5 : ℚ), (7 : ℚ))]) =
       bassDiffOf [((100 : ℚ), (1 : ℚ))] ∧
     trebleDiffOf ([((100 : ℚ), (1 : ℚ))] ++ [((5 : ℚ), (7 : ℚ))]) =
       trebleDiffOf [((100 : ℚ), (1 : ℚ))] ∧
     labelOfCurve ([((100 : ℚ), (1 : ℚ))] ++ [((5 : ℚ), (7 : ℚ))]) =
       labelOfCurve [((100 : ℚ), (1 : ℚ))]) :=
  ⟨Or.inl (by norm_num),
    out_of_range_exclusion [((100 : ℚ), (1 : ℚ))] 5 7 (Or.inl (by norm_num))⟩

end DatasetMaker
